import Mathlib

/-!
Shallow embedding of the dioxus-motion animation engine
(src/lib.rs, src/animation.rs, src/animations/colors.rs).

Rust `f32` values (time deltas, durations, animatable components) are
modelled as exact rationals `ℚ`; machine `u8` counters use `Nat` with an
explicit `% 256` where the source wraps.  The `Animatable` trait is
modelled as a structure of operations; callbacks (`FnOnce` boxes and the
config `on_complete` handler) are modelled by a `Bool` presence flag, and
each `update` reports how many times it would have invoked the sequence
callback (`seqFired`) and the config callback (`cfgFired`).  Rust's
panicking slice index in the sequence-advance branch is modelled by
`Option`: `update` returns `none` exactly when the source would panic.
-/

/-- The `Animatable` trait of `animations::utils` (definition not under
`src/`). Modelled from the spec: operations zero, epsilon, magnitude,
scale, add, sub, interpolate on an animatable value type. -/
structure AnimatableOps (α : Type) where
  zero : α
  epsilon : ℚ
  magnitude : α → ℚ
  scale : α → ℚ → α
  add : α → α → α
  sub : α → α → α
  interpolate : α → α → ℚ → α

/-- `SpringState` from `animations::spring` (definition not under `src/`).
Modelled from the spec: the integrator reports `Active` or `Completed`. -/
inductive SpringState where
  | Active : SpringState
  | Completed : SpringState
deriving DecidableEq

/-- `Spring` parameters from `animations::spring` (definition not under
`src/`). Modelled from the spec: stiffness, damping, mass of a damped
harmonic oscillator. -/
structure Spring where
  stiffness : ℚ
  damping : ℚ
  mass : ℚ

/-- `Tween` from src/animation.rs: a duration plus an easing function
`(progress, start, end, total) -> eased`. Duration in seconds as `ℚ`. -/
structure Tween where
  duration : ℚ
  easing : ℚ → ℚ → ℚ → ℚ → ℚ

/-- `AnimationMode` from src/animation.rs: tween or spring. -/
inductive AnimationMode where
  | Tween : Tween → AnimationMode
  | Spring : Spring → AnimationMode

/-- `LoopMode` from `animations::utils` (definition not under `src/`).
Modelled from the spec: None, Infinite, or Times(count) with a `u8` count. -/
inductive LoopMode where
  | None : LoopMode
  | Infinite : LoopMode
  | Times : ℕ → LoopMode

/-- `AnimationConfig` from `animations::utils` (definition not under
`src/`). Modelled from the spec: mode, optional loop mode, start delay,
optional one-shot completion callback (modelled by a presence flag). -/
structure AnimationConfig where
  mode : AnimationMode
  loopMode : Option LoopMode
  delay : ℚ
  onComplete : Bool

/-- The linear easing used as the default (`Linear::ease_in_out` of the
easer crate, external to this repository): `c * t / d + b`. -/
def linearEase (t b c d : ℚ) : ℚ := c * t / d + b

/-- Default `AnimationConfig`. Modelled from the spec: default mode is the
default tween (300 ms duration, linear easing), no loop, no delay, no
callback. -/
def AnimationConfig.default : AnimationConfig :=
  { mode := AnimationMode.Tween { duration := 3/10, easing := linearEase }
    loopMode := Option.none
    delay := 0
    onComplete := false }

/-- `AnimationStep` (src/lib.rs lines 71-77). -/
structure AnimationStep (α : Type) where
  target : α
  config : AnimationConfig
  predictedNext : Option α

/-- `AnimationSequence` (src/lib.rs lines 82-88); `current_step` is a `u8`
cursor modelled as a `Nat` kept below 256 by wrapping arithmetic. -/
structure AnimationSequence (α : Type) where
  steps : List (AnimationStep α)
  currentStep : ℕ
  onComplete : Bool
  capacityHint : ℕ

/-- `impl Clone for AnimationSequence` (src/lib.rs lines 90-99): clones
steps, cursor and capacity hint but sets `on_complete` to `None`. -/
def AnimationSequence.cloneSeq {α : Type} (s : AnimationSequence α) :
    AnimationSequence α :=
  { steps := s.steps
    currentStep := s.currentStep
    onComplete := false
    capacityHint := s.capacityHint }

/-- `AnimationSequence::default` (src/lib.rs lines 156-165). -/
def AnimationSequence.empty (α : Type) : AnimationSequence α :=
  { steps := [], currentStep := 0, onComplete := false, capacityHint := 0 }

/-- `AnimationSequence::then` (src/lib.rs lines 120-132): append a step,
precomputing `predicted_next` as the midpoint interpolation from the last
step's target when one exists. -/
def AnimationSequence.thenStep {α : Type} (A : AnimatableOps α)
    (s : AnimationSequence α) (target : α) (config : AnimationConfig) :
    AnimationSequence α :=
  let predictedNext :=
    s.steps.getLast?.map (fun lastStep => A.interpolate lastStep.target target (1/2))
  { s with steps := s.steps ++ [⟨target, config, predictedNext⟩] }

/-- `AnimationSequence::on_complete` (src/lib.rs lines 134-137): attach the
terminal callback (presence flag in this model). -/
def AnimationSequence.withOnComplete {α : Type} (s : AnimationSequence α) :
    AnimationSequence α :=
  { s with onComplete := true }

/-- `Motion` (src/lib.rs lines 167-179); durations are seconds as `ℚ`,
`current_loop` is a `u8` modelled as a wrapped `Nat`. -/
structure Motion (α : Type) where
  current : α
  target : α
  initial : α
  velocity : α
  config : AnimationConfig
  running : Bool
  elapsed : ℚ
  delayElapsed : ℚ
  currentLoop : ℕ
  sequence : Option (AnimationSequence α)

/-- `Motion::new` (src/lib.rs lines 182-195). -/
def Motion.new {α : Type} (A : AnimatableOps α) (initial : α) : Motion α :=
  { current := initial
    target := initial
    initial := initial
    velocity := A.zero
    config := AnimationConfig.default
    running := false
    elapsed := 0
    delayElapsed := 0
    currentLoop := 0
    sequence := Option.none }

/-- `Motion::animate_to` (src/lib.rs lines 197-207): clears any sequence,
snapshots `initial := current`, installs target/config, marks running and
zeroes elapsed/delay/velocity/loop counter. -/
def Motion.animate_to {α : Type} (A : AnimatableOps α) (m : Motion α)
    (target : α) (config : AnimationConfig) : Motion α :=
  { m with
    sequence := Option.none
    initial := m.current
    target := target
    config := config
    running := true
    elapsed := 0
    delayElapsed := 0
    velocity := A.zero
    currentLoop := 0 }

/-- `Motion::animate_sequence` (src/lib.rs lines 209-214): if the sequence
has a first step, start it via `animate_to` and then retain the full
sequence; otherwise do nothing. -/
def Motion.animate_sequence {α : Type} (A : AnimatableOps α) (m : Motion α)
    (sequence : AnimationSequence α) : Motion α :=
  match sequence.steps.head? with
  | Option.some firstStep =>
      let m1 := Motion.animate_to A m firstStep.target firstStep.config
      { m1 with sequence := Option.some sequence }
  | Option.none => m

/-- `Motion::value` (src/lib.rs lines 216-218). -/
def Motion.value {α : Type} (m : Motion α) : α := m.current

/-- `Motion::is_running` (src/lib.rs lines 220-222). -/
def Motion.is_running {α : Type} (m : Motion α) : Bool :=
  m.running || m.sequence.isSome

/-- `Motion::stop` (src/lib.rs lines 230-235). -/
def Motion.stop {α : Type} (A : AnimatableOps α) (m : Motion α) : Motion α :=
  { m with
    running := false
    currentLoop := 0
    velocity := A.zero
    sequence := Option.none }

/-- `Motion::reset` (src/lib.rs lines 224-228). -/
def Motion.reset {α : Type} (A : AnimatableOps α) (m : Motion α) : Motion α :=
  let m1 := Motion.stop A m
  { m1 with current := m1.initial, elapsed := 0 }

/-- `Motion::delay` (src/lib.rs lines 237-241): clone the config with a
new start delay and reinstall it. -/
def Motion.delayOp {α : Type} (m : Motion α) (duration : ℚ) : Motion α :=
  { m with config := { m.config with delay := duration } }

/-- `MIN_DELTA` (src/lib.rs line 280): updates below 1/240 s are skipped. -/
def minDelta : ℚ := 1/240

/-- `FIXED_DT` (src/lib.rs line 316): the target spring substep, 1/120 s. -/
def fixedDt : ℚ := 1/120

/-- Spring substep count (src/lib.rs line 317):
`((dt / FIXED_DT) as usize).max(1)`; `as usize` truncates toward zero and
saturates at 0 for negative input. -/
def springSteps (dt : ℚ) : ℕ := max (Int.toNat ⌊dt / fixedDt⌋) 1

/-- Spring substep length (src/lib.rs line 318): `dt / steps as f32`. -/
def springStepDt (dt : ℚ) : ℚ := dt / (springSteps dt : ℚ)

/-- `Motion::check_spring_completion` (src/lib.rs lines 415-430): completed
iff squared velocity magnitude and squared delta magnitude are both below
`0.001²`; on completion, snap current to target and velocity to zero. -/
def Motion.check_spring_completion {α : Type} (A : AnimatableOps α)
    (m : Motion α) : Motion α × SpringState :=
  let epsSq : ℚ := (1/1000) * (1/1000)
  let velocitySq := (A.magnitude m.velocity) ^ 2
  let delta := A.sub m.target m.current
  let deltaSq := (A.magnitude delta) ^ 2
  if velocitySq < epsSq ∧ deltaSq < epsSq then
    ({ m with current := m.target, velocity := A.zero }, SpringState.Completed)
  else
    (m, SpringState.Active)

/-- The substep loop of the fixed-substep Euler `Motion::update_spring`
(src/lib.rs lines 320-340, web profile): each substep first early-exits
with a snap-to-target when both delta and velocity magnitudes are below
0.001, otherwise integrates velocity then position; after the last substep
the shared completion check runs. -/
def Motion.springLoop {α : Type} (A : AnimatableOps α) (spring : Spring)
    (stepDt : ℚ) : ℕ → Motion α → Motion α × SpringState
  | 0, m => Motion.check_spring_completion A m
  | n + 1, m =>
      let delta := A.sub m.target m.current
      if A.magnitude delta < 1/1000 ∧ A.magnitude m.velocity < 1/1000 then
        ({ m with current := m.target, velocity := A.zero },
          SpringState.Completed)
      else
        let force := A.scale delta spring.stiffness
        let dampingForce := A.scale m.velocity spring.damping
        let vel1 := A.add m.velocity
          (A.scale (A.sub force dampingForce) ((1 / spring.mass) * stepDt))
        let m1 := { m with
          velocity := vel1
          current := A.add m.current (A.scale vel1 stepDt) }
        Motion.springLoop A spring stepDt n m1

/-- `Motion::update_spring` (src/lib.rs lines 306-343, web profile):
subdivide `dt` using `springSteps`/`springStepDt` and run the Euler loop. -/
def Motion.update_spring {α : Type} (A : AnimatableOps α) (spring : Spring)
    (m : Motion α) (dt : ℚ) : Motion α × SpringState :=
  Motion.springLoop A spring (springStepDt dt) (springSteps dt) m

/-- `Motion::update_tween` (src/lib.rs lines 433-466): accumulate elapsed,
compute clamped progress (instantly 1 when duration is zero), snap to
initial/target at the boundaries, otherwise interpolate at the eased
progress; returns the new state and whether the tween completed. -/
def Motion.update_tween {α : Type} (A : AnimatableOps α) (tween : Tween)
    (m : Motion α) (dt : ℚ) : Motion α × Bool :=
  let elapsedSecs := m.elapsed + dt
  let m1 := { m with elapsed := elapsedSecs }
  let durationSecs := tween.duration
  let progress :=
    if durationSecs = 0 then 1 else min (elapsedSecs * (1 / durationSecs)) 1
  if progress ≤ 0 then
    ({ m1 with current := m1.initial }, false)
  else if 1 ≤ progress then
    ({ m1 with current := m1.target }, true)
  else
    let easedProgress := tween.easing progress 0 1 1
    let c :=
      if easedProgress = 0 then m1.initial
      else if easedProgress = 1 then m1.target
      else A.interpolate m1.initial m1.target easedProgress
    ({ m1 with current := c }, decide (1 ≤ progress))

/-- Result of one `Motion::update` call: the new state, the returned bool
("still active"), and how many times the sequence `on_complete` and the
config `on_complete` callbacks were invoked during the call. -/
structure UpdateOut (α : Type) where
  state : Motion α
  active : Bool
  seqFired : ℕ
  cfgFired : ℕ

/-- `Motion::handle_completion` (src/lib.rs lines 468-503): apply the loop
policy; whenever the animation stops, invoke the config `on_complete`
callback if present (the lock acquisition always succeeds in this model). -/
def Motion.handle_completion {α : Type} (A : AnimatableOps α) (m : Motion α) :
    UpdateOut α :=
  let fire : ℕ := if m.config.onComplete then 1 else 0
  match m.config.loopMode.getD LoopMode.None with
  | LoopMode.None =>
      { state := { m with running := false }, active := false,
        seqFired := 0, cfgFired := fire }
  | LoopMode.Infinite =>
      { state := { m with current := m.initial, elapsed := 0, velocity := A.zero },
        active := true, seqFired := 0, cfgFired := 0 }
  | LoopMode.Times count =>
      let cl := (m.currentLoop + 1) % 256
      if count ≤ cl then
        { state := Motion.stop A { m with currentLoop := cl }, active := false,
          seqFired := 0, cfgFired := fire }
      else
        { state :=
            { m with
              currentLoop := cl
              current := m.initial
              elapsed := 0
              velocity := A.zero }
          active := true
          seqFired := 0
          cfgFired := 0 }

/-- The tail of `Motion::update` after the sequence branch (src/lib.rs
lines 279-303): skip imperceptible deltas, account the start delay, then
dispatch to the spring or tween integrator and apply completion policy. -/
def Motion.updateAfterSeq {α : Type} (A : AnimatableOps α) (m : Motion α)
    (dt : ℚ) : UpdateOut α :=
  if dt < minDelta then
    { state := m, active := true, seqFired := 0, cfgFired := 0 }
  else if m.delayElapsed < m.config.delay then
    { state := { m with delayElapsed := m.delayElapsed + dt },
      active := true, seqFired := 0, cfgFired := 0 }
  else
    match m.config.mode with
    | AnimationMode.Spring spring =>
        let r := Motion.update_spring A spring m dt
        match r.2 with
        | SpringState.Completed => Motion.handle_completion A r.1
        | SpringState.Active =>
            { state := r.1, active := true, seqFired := 0, cfgFired := 0 }
    | AnimationMode.Tween tween =>
        let r := Motion.update_tween A tween m dt
        if r.2 then Motion.handle_completion A r.1
        else { state := r.1, active := true, seqFired := 0, cfgFired := 0 }

/-- `Motion::update` (src/lib.rs lines 243-303). The sequence-advance
branch compares the `u8` cursor against `total_steps as u8 - 1` (wrapping),
and on advance stores the incremented clone and then calls `animate_to`
(which clears the stored sequence, as the source does). `none` models the
panic of the slice index on an out-of-range cursor. -/
def Motion.update {α : Type} (A : AnimatableOps α) (m : Motion α) (dt : ℚ) :
    Option (UpdateOut α) :=
  if !m.running && m.sequence.isNone then
    Option.some { state := m, active := false, seqFired := 0, cfgFired := 0 }
  else
    match m.sequence with
    | Option.some seq =>
        if m.running then Option.some (Motion.updateAfterSeq A m dt)
        else
          let totalSteps := seq.steps.length
          let lastIdx := (totalSteps % 256 + 255) % 256
          if seq.currentStep < lastIdx then
            let newSeq :=
              { seq.cloneSeq with currentStep := (seq.currentStep + 1) % 256 }
            match newSeq.steps[newSeq.currentStep]? with
            | Option.some step =>
                let m1 := Motion.animate_to A
                  { m with sequence := Option.some newSeq } step.target step.config
                Option.some (Motion.updateAfterSeq A m1 dt)
            | Option.none => Option.none
          else if seq.currentStep = lastIdx then
            let seqClone := seq.cloneSeq
            let fired : ℕ := if seqClone.onComplete then 1 else 0
            let m1 := Motion.stop A { m with sequence := Option.none }
            Option.some
              { state := m1, active := false, seqFired := fired, cfgFired := 0 }
          else
            Option.some (Motion.updateAfterSeq A m dt)
    | Option.none => Option.some (Motion.updateAfterSeq A m dt)

/-- Fold a list of `dt` values through `Motion.update`, accumulating the
total number of sequence-callback and config-callback invocations;
`none` if any call would panic. -/
def runUpd {α : Type} (A : AnimatableOps α) :
    Motion α → List ℚ → Option (Motion α × ℕ × ℕ)
  | m, [] => Option.some (m, 0, 0)
  | m, dt :: rest =>
      match Motion.update A m dt with
      | Option.none => Option.none
      | Option.some o =>
          (runUpd A o.state rest).map
            (fun r => (r.1, o.seqFired + r.2.1, o.cfgFired + r.2.2))

/-- The scalar `Animatable` instance (the `f32` impl is not under `src/`).
Modelled from the spec: zero, absolute-value magnitude, component
arithmetic, and linear interpolation exact at the endpoints. -/
def ratOps : AnimatableOps ℚ :=
  { zero := 0
    epsilon := 1/1000
    magnitude := fun x => |x|
    scale := fun x factor => x * factor
    add := fun x y => x + y
    sub := fun x y => x - y
    interpolate := fun x y t => x + (y - x) * t }

/-- A tween config of duration `d` with linear easing, no loop, no delay,
no callback. -/
def cfgTween (d : ℚ) : AnimationConfig :=
  { mode := AnimationMode.Tween { duration := d, easing := linearEase }
    loopMode := Option.none
    delay := 0
    onComplete := false }

/-- Three-step sequence [1, 2, 3] of zero-duration tween steps, built with
the source's `then`/`on_complete` builders. -/
def seqABC : AnimationSequence ℚ :=
  AnimationSequence.withOnComplete
    (AnimationSequence.thenStep ratOps
      (AnimationSequence.thenStep ratOps
        (AnimationSequence.thenStep ratOps (AnimationSequence.empty ℚ)
          1 (cfgTween 0))
        2 (cfgTween 0))
      3 (cfgTween 0))

/-- The motion obtained by loading `seqABC` into a fresh scalar motion. -/
def mSeqABC : Motion ℚ :=
  Motion.animate_sequence ratOps (Motion.new ratOps 0) seqABC

/-- One-step sequence [1] of a zero-duration tween step, with the terminal
callback attached. -/
def seqA1 : AnimationSequence ℚ :=
  AnimationSequence.withOnComplete
    (AnimationSequence.thenStep ratOps (AnimationSequence.empty ℚ)
      1 (cfgTween 0))

/-- The motion obtained by loading `seqA1` into a fresh scalar motion. -/
def mSeqA1 : Motion ℚ :=
  Motion.animate_sequence ratOps (Motion.new ratOps 0) seqA1

/-- The state after an `update` call on a concrete scalar motion (the
state unchanged when the call would panic, which the theorems below rule
out separately via `Option.isSome`). -/
def nextM (m : Motion ℚ) (dt : ℚ) : Motion ℚ :=
  ((Motion.update ratOps m dt).map (fun o => o.state)).getD m

/-- Rust `f32::clamp(lo, hi)` on exact rationals. -/
def clampQ (x lo hi : ℚ) : ℚ := if x < lo then lo else if hi < x then hi else x

/-- `Color` (src/animations/colors.rs lines 11-21): RGBA with public
fields, nominally normalized to [0,1] but settable directly. -/
structure Color where
  r : ℚ
  g : ℚ
  b : ℚ
  a : ℚ
deriving DecidableEq

/-- `Color::new` (colors.rs lines 31-38): clamps every component to
[0,1]. -/
def Color.new (r g b a : ℚ) : Color :=
  ⟨clampQ r 0 1, clampQ g 0 1, clampQ b 0 1, clampQ a 0 1⟩

/-- `Color::interpolate` (colors.rs lines 128-138): clamp t to [0,1], then
componentwise `self * (1-t) + target * t`, rebuilt through `Color::new`
(which clamps each component again). -/
def Color.interpolate (c target : Color) (t : ℚ) : Color :=
  let t1 := clampQ t 0 1
  Color.new (c.r * (1 - t1) + target.r * t1) (c.g * (1 - t1) + target.g * t1)
    (c.b * (1 - t1) + target.b * t1) (c.a * (1 - t1) + target.a * t1)

/-- Invariant of a tween run between `update` calls: still running toward
`tgt` with accumulated elapsed time `s`, no sequence, delay already
exhausted (zero-delay config `cfg`). -/
def TweenMid {α : Type} (cfg : AnimationConfig) (tgt : α) (s : ℚ)
    (m : Motion α) : Prop :=
  m.running = true ∧ m.sequence = Option.none ∧ m.elapsed = s ∧
    m.delayElapsed = 0 ∧ m.config = cfg ∧ m.target = tgt

/-- The per-state invariant behind C10: any stored sequence has a
non-empty step list. -/
def SeqOK {α : Type} (m : Motion α) : Prop :=
  ∀ s, m.sequence = Option.some s → s.steps ≠ []

/-- The Motion states reachable through the public operations: `new`,
`animate_to`, `animate_sequence`, `update` (when it does not panic),
`stop`, `reset` and `delay`. -/
inductive Reachable {α : Type} (A : AnimatableOps α) : Motion α → Prop where
  | new (v : α) : Reachable A (Motion.new A v)
  | animTo {m : Motion α} (tgt : α) (cfg : AnimationConfig) :
      Reachable A m → Reachable A (Motion.animate_to A m tgt cfg)
  | animSeq {m : Motion α} (s : AnimationSequence α) :
      Reachable A m → Reachable A (Motion.animate_sequence A m s)
  | upd {m : Motion α} (dt : ℚ) (o : UpdateOut α) :
      Reachable A m → Motion.update A m dt = Option.some o →
      Reachable A o.state
  | stopOp {m : Motion α} : Reachable A m → Reachable A (Motion.stop A m)
  | resetOp {m : Motion α} : Reachable A m → Reachable A (Motion.reset A m)
  | delayCfg {m : Motion α} (d : ℚ) :
      Reachable A m → Reachable A (Motion.delayOp m d)

theorem update_stopped {α : Type} (A : AnimatableOps α) (m : Motion α) (dt : ℚ)
    (hrun : m.running = false) (hseq : m.sequence = Option.none) :
    Motion.update A m dt =
      Option.some { state := m, active := false, seqFired := 0, cfgFired := 0 } := by
  unfold Motion.update
  rw [hrun, hseq]
  simp

theorem update_running_noseq {α : Type} (A : AnimatableOps α) (m : Motion α) (dt : ℚ)
    (hrun : m.running = true) (hseq : m.sequence = Option.none) :
    Motion.update A m dt = Option.some (Motion.updateAfterSeq A m dt) := by
  unfold Motion.update
  rw [hrun, hseq]
  simp

theorem afterSeq_skip {α : Type} (A : AnimatableOps α) (m : Motion α) (dt : ℚ)
    (h : dt < minDelta) :
    Motion.updateAfterSeq A m dt =
      { state := m, active := true, seqFired := 0, cfgFired := 0 } := by
  unfold Motion.updateAfterSeq
  rw [if_pos h]

theorem afterSeq_delay {α : Type} (A : AnimatableOps α) (m : Motion α) (dt : ℚ)
    (h : ¬ dt < minDelta) (hd : m.delayElapsed < m.config.delay) :
    Motion.updateAfterSeq A m dt =
      { state := { m with delayElapsed := m.delayElapsed + dt }
        active := true, seqFired := 0, cfgFired := 0 } := by
  unfold Motion.updateAfterSeq
  rw [if_neg h, if_pos hd]

theorem afterSeq_tween {α : Type} (A : AnimatableOps α) (m : Motion α) (dt : ℚ)
    (tw : Tween) (h : ¬ dt < minDelta) (hd : ¬ m.delayElapsed < m.config.delay)
    (hm : m.config.mode = AnimationMode.Tween tw) :
    Motion.updateAfterSeq A m dt =
      (if (Motion.update_tween A tw m dt).2 then
        Motion.handle_completion A (Motion.update_tween A tw m dt).1
      else
        { state := (Motion.update_tween A tw m dt).1
          active := true, seqFired := 0, cfgFired := 0 }) := by
  unfold Motion.updateAfterSeq
  rw [if_neg h, if_neg hd, hm]

theorem tween_zero_duration {α : Type} (A : AnimatableOps α) (m : Motion α)
    (dt : ℚ) (tw : Tween) (hdur : tw.duration = 0) :
    Motion.update_tween A tw m dt =
      ({ m with elapsed := m.elapsed + dt, current := m.target }, true) := by
  unfold Motion.update_tween
  rw [hdur]
  norm_num

theorem tween_complete {α : Type} (A : AnimatableOps α) (m : Motion α)
    (dt : ℚ) (tw : Tween) (hdur : 0 < tw.duration)
    (hc : tw.duration ≤ m.elapsed + dt) :
    Motion.update_tween A tw m dt =
      ({ m with elapsed := m.elapsed + dt, current := m.target }, true) := by
  unfold Motion.update_tween
  have hne : ¬ tw.duration = 0 := ne_of_gt hdur
  have hp : min ((m.elapsed + dt) * (1 / tw.duration)) 1 = 1 := by
    rw [min_eq_right]
    rw [mul_one_div, le_div_iff₀ hdur, one_mul]
    exact hc
  simp only [hne, ite_false, if_false, hp]
  norm_num

theorem tween_mid {α : Type} (A : AnimatableOps α) (m : Motion α)
    (dt : ℚ) (tw : Tween) (hdur : 0 < tw.duration)
    (hpos : 0 < m.elapsed + dt) (hlt : m.elapsed + dt < tw.duration) :
    ∃ c, Motion.update_tween A tw m dt =
      ({ m with elapsed := m.elapsed + dt, current := c }, false) := by
  unfold Motion.update_tween
  have hne : ¬ tw.duration = 0 := ne_of_gt hdur
  have hx0 : 0 < (m.elapsed + dt) * (1 / tw.duration) := by positivity
  have hx1 : (m.elapsed + dt) * (1 / tw.duration) < 1 := by
    rw [mul_one_div, div_lt_one hdur]
    exact hlt
  have hp : min ((m.elapsed + dt) * (1 / tw.duration)) 1 =
      (m.elapsed + dt) * (1 / tw.duration) := min_eq_left (le_of_lt hx1)
  have hd : decide ((1:ℚ) ≤ (m.elapsed + dt) * (1 / tw.duration)) = false :=
    decide_eq_false (not_le.mpr hx1)
  simp only [hne, ite_false, if_false, hp, if_neg (not_le.mpr hx0),
    if_neg (not_le.mpr hx1), hd]
  exact ⟨_, rfl⟩

theorem handle_no_loop {α : Type} (A : AnimatableOps α) (m : Motion α)
    (h : m.config.loopMode = Option.none) :
    Motion.handle_completion A m =
      { state := { m with running := false }, active := false, seqFired := 0
        cfgFired := if m.config.onComplete then 1 else 0 } := by
  unfold Motion.handle_completion
  rw [h]
  rfl

/-- Claim C1: for the three-step sequence [1, 2, 3] of zero-duration tween
steps, after the first step completes the next `update` does begin
animating toward the second target 2 (not 3); but, contrary to the claim,
`animate_to` clears the stored sequence during the advance, so the
cursor-advanced sequence is not retained: over further updates the value
stops at 2 (the third step never runs) and the sequence `on_complete`
callback, although attached, never fires (0 invocations over the run). -/
theorem update_advances_to_second_step_but_drops_sequence :
    (Motion.update ratOps mSeqABC (1/100)).isSome = true ∧
    (nextM mSeqABC (1/100)).running = false ∧
    (nextM mSeqABC (1/100)).sequence.isSome = true ∧
    (nextM (nextM mSeqABC (1/100)) (1/100)).target = 2 ∧
    (nextM (nextM mSeqABC (1/100)) (1/100)).sequence.isNone = true ∧
    seqABC.onComplete = true ∧
    (runUpd ratOps mSeqABC [1/100, 1/100, 1/100, 1/100, 1/100]).map
        (fun r => (r.1.current, Motion.is_running r.1, r.2.1)) =
      Option.some (2, false, 0) := by
  norm_num [Motion.update, Motion.updateAfterSeq, Motion.update_tween,
    Motion.handle_completion, Motion.animate_to, Motion.animate_sequence,
    Motion.new, Motion.stop, Motion.is_running, mSeqABC, seqABC, nextM, runUpd,
    AnimationSequence.thenStep, AnimationSequence.withOnComplete,
    AnimationSequence.empty, AnimationSequence.cloneSeq, cfgTween, minDelta,
    ratOps, AnimationConfig.default]

/-- Claim C2: for the one-step sequence [1] with an attached `on_complete`, the
`update` after the last step finishes (cursor 0 equals steps.len()-1,
running false) clears the sequence, stops the motion and returns false as
claimed; but the callback is never invoked (seqFired = 0, although the
retained sequence holds the callback), because `Clone for
AnimationSequence` sets `on_complete` to `None` and the Equal branch
clones the sequence before taking the callback. -/
theorem final_step_transition_never_fires_sequence_callback :
    seqA1.onComplete = true ∧
    (nextM mSeqA1 (1/100)).running = false ∧
    (nextM mSeqA1 (1/100)).sequence.map (fun s => (s.currentStep, s.onComplete)) =
      Option.some (0, true) ∧
    (Motion.update ratOps (nextM mSeqA1 (1/100)) (1/100)).map
        (fun o => (o.active, o.seqFired, o.state.sequence.isNone, o.state.running)) =
      Option.some (false, 0, true, false) := by
  norm_num [Motion.update, Motion.updateAfterSeq, Motion.update_tween,
    Motion.handle_completion, Motion.animate_to, Motion.animate_sequence,
    Motion.new, Motion.stop, mSeqA1, seqA1, nextM,
    AnimationSequence.thenStep, AnimationSequence.withOnComplete,
    AnimationSequence.empty, AnimationSequence.cloneSeq, cfgTween, minDelta,
    ratOps, AnimationConfig.default]

/-- Counterexample for claim C3: with a zero-duration tween and no delay, an
`update` call with dt = 1/300 (below the 1/240 minimum delta) does not
complete the animation: it returns true and leaves the motion running with
its value still at the initial 0, refuting completion "for every dt". -/
theorem zero_duration_tween_not_completed_by_small_dt :
    (Motion.update ratOps
        (Motion.animate_to ratOps (Motion.new ratOps 0) 1 (cfgTween 0)) (1/300)).map
        (fun o => (o.active, o.state.running, o.state.current)) =
      Option.some (true, true, 0) := by
  norm_num [Motion.update, Motion.updateAfterSeq, Motion.animate_to, Motion.new,
    cfgTween, minDelta, ratOps, AnimationConfig.default]

/-- Claim C3 as amended: a motion animating a zero-duration tween (no delay, no
loop) completes on the first `update` call whose dt is at least the 1/240
minimum delta: the call returns false, the motion stops running and the
value snaps exactly to the target. -/
theorem zero_duration_tween_completes_when_dt_counted {α : Type}
    (A : AnimatableOps α) (v0 tgt : α) (e : ℚ → ℚ → ℚ → ℚ → ℚ) (cb : Bool)
    (dt : ℚ) (hdt : minDelta ≤ dt) :
    ∃ o, Motion.update A
        (Motion.animate_to A (Motion.new A v0) tgt
          { mode := AnimationMode.Tween { duration := 0, easing := e }
            loopMode := Option.none
            delay := 0
            onComplete := cb }) dt = Option.some o ∧
      o.active = false ∧ o.state.running = false ∧ o.state.current = tgt := by
  set m0 := Motion.animate_to A (Motion.new A v0) tgt
    { mode := AnimationMode.Tween { duration := 0, easing := e }
      loopMode := Option.none
      delay := 0
      onComplete := cb } with hm0
  have h1 := update_running_noseq A m0 dt rfl rfl
  have h2 := afterSeq_tween A m0 dt { duration := 0, easing := e }
    (not_lt.mpr hdt) (lt_irrefl (0:ℚ)) rfl
  rw [tween_zero_duration A m0 dt { duration := 0, easing := e } rfl] at h2
  rw [if_pos rfl] at h2
  have h4 := handle_no_loop A
    { m0 with elapsed := m0.elapsed + dt, current := m0.target } rfl
  exact ⟨_, by rw [h1, h2, h4], rfl, rfl, rfl⟩

/-- Witness for claim C3: the amended theorem applied at the scalar instance with
initial 0, target 1 and dt exactly 1/240. -/
theorem zero_duration_tween_completes_when_dt_counted_w :
    minDelta ≤ (1:ℚ)/240 ∧
    ∃ o, Motion.update ratOps
        (Motion.animate_to ratOps (Motion.new ratOps 0) 1
          { mode := AnimationMode.Tween { duration := 0, easing := linearEase }
            loopMode := Option.none
            delay := 0
            onComplete := false }) (1/240) = Option.some o ∧
      o.active = false ∧ o.state.running = false ∧ o.state.current = 1 :=
  ⟨by norm_num [minDelta],
    zero_duration_tween_completes_when_dt_counted ratOps 0 1 linearEase false
      (1/240) (by norm_num [minDelta])⟩

/-- Counterexample for claim C4: a tween of duration 1/100 s toward target 1 is
updated three times with dt = 1/250 each; the cumulative dt (3/250)
exceeds the duration, yet every call is skipped as below the 1/240 minimum
delta: the value stays at the initial 0 and the motion is still running,
refuting the claim as stated over all dt values. -/
theorem tween_cumulative_dt_not_sufficient_with_small_deltas :
    ((1:ℚ)/100 ≤ 1/250 + 1/250 + 1/250) ∧
    (runUpd ratOps
        (Motion.animate_to ratOps (Motion.new ratOps 0) 1 (cfgTween (1/100)))
        [1/250, 1/250, 1/250]).map
        (fun r => (r.1.current, r.1.running)) = Option.some (0, true) := by
  norm_num [Motion.update, Motion.updateAfterSeq, Motion.animate_to, Motion.new,
    runUpd, cfgTween, minDelta, ratOps, AnimationConfig.default]

/-- Counterexample for claim C6: for dt = 1/100 s the Euler spring integrator uses a
single substep of length 1/100 s, which exceeds the 1/120 s bound stated
by the claim (the substep count is the floor, not the ceiling, of
dt / (1/120)). -/
theorem spring_substep_exceeds_fixed_dt :
    springSteps (1/100) = 1 ∧ fixedDt < springStepDt (1/100) := by
  constructor
  · norm_num [springSteps, fixedDt]
  · norm_num [springSteps, springStepDt, fixedDt]

/-- Claim C9: calling `animate_sequence` with a sequence containing no steps
returns the motion completely unchanged: no field is written, so no
animation starts, the value is unchanged and the running state is
untouched. -/
theorem animate_sequence_empty_is_noop {α : Type} (A : AnimatableOps α)
    (m : Motion α) (s : AnimationSequence α) (h : s.steps = []) :
    Motion.animate_sequence A m s = m := by
  simp [Motion.animate_sequence, h]

/-- Witness for claim C9: the empty sequence applied to a fresh scalar motion. -/
theorem animate_sequence_empty_is_noop_w :
    Motion.animate_sequence ratOps (Motion.new ratOps 0)
      (AnimationSequence.empty ℚ) = Motion.new ratOps 0 :=
  animate_sequence_empty_is_noop ratOps (Motion.new ratOps 0)
    (AnimationSequence.empty ℚ) rfl

/-- Claim C5: the spring completion test reports `Completed` iff the squared
velocity magnitude and the squared magnitude of (target - current) are
both below 0.001 squared, and whenever it reports completion the returned
state has current set exactly to target and velocity exactly to zero. -/
theorem check_spring_completion_iff_and_snaps {α : Type} (A : AnimatableOps α)
    (m : Motion α) :
    ((Motion.check_spring_completion A m).2 = SpringState.Completed ↔
      (A.magnitude m.velocity) ^ 2 < ((1:ℚ)/1000) ^ 2 ∧
      (A.magnitude (A.sub m.target m.current)) ^ 2 < ((1:ℚ)/1000) ^ 2) ∧
    ((Motion.check_spring_completion A m).2 = SpringState.Completed →
      (Motion.check_spring_completion A m).1.current = m.target ∧
      (Motion.check_spring_completion A m).1.velocity = A.zero) := by
  have he : ((1:ℚ)/1000) ^ 2 = (1/1000) * (1/1000) := by ring
  rw [he]
  simp only [Motion.check_spring_completion]
  split_ifs with h
  · exact ⟨iff_of_true rfl h, fun _ => ⟨rfl, rfl⟩⟩
  · exact ⟨iff_of_false (by simp) h, fun hc => absurd hc (by simp)⟩

/-- Witness for claim C5: on a fresh scalar motion (velocity zero, current equal to
target) the completion test fires and snaps current to the target. -/
theorem check_spring_completion_iff_and_snaps_w :
    (Motion.check_spring_completion ratOps (Motion.new ratOps 0)).2 =
        SpringState.Completed ∧
      (Motion.check_spring_completion ratOps (Motion.new ratOps 0)).1.current =
        (Motion.new ratOps 0).target :=
  have h := check_spring_completion_iff_and_snaps ratOps (Motion.new ratOps 0)
  have hc : (Motion.check_spring_completion ratOps (Motion.new ratOps 0)).2 =
      SpringState.Completed :=
    h.1.mpr (by norm_num [ratOps, Motion.new])
  ⟨hc, (h.2 hc).1⟩

/-- Claim C6 as amended: for every dt > 0 the Euler spring integrator subdivides dt
into at least 1 substep of positive length, and each substep is strictly
shorter than 2 * (1/120) s = 1/60 s (it can exceed 1/120 s, since the
substep count is the floor rather than the ceiling of dt / (1/120)). -/
theorem spring_substep_count_and_bound (dt : ℚ) (h : 0 < dt) :
    1 ≤ springSteps dt ∧ 0 < springStepDt dt ∧ springStepDt dt < 2 * fixedDt := by
  have hfd : (0:ℚ) < fixedDt := by norm_num [fixedDt]
  refine ⟨Nat.le_max_right _ 1, ?_, ?_⟩
  · have hn : 0 < springSteps dt := Nat.lt_of_lt_of_le Nat.zero_lt_one (Nat.le_max_right _ 1)
    exact div_pos h (by exact_mod_cast hn)
  · rcases le_or_lt ⌊dt / fixedDt⌋ 0 with hf | hf
    · have hn : springSteps dt = 1 := by
        unfold springSteps
        rw [Int.toNat_of_nonpos hf]
        rfl
      have hr : dt / fixedDt < 1 := by
        have h1 := Int.lt_floor_add_one (dt / fixedDt)
        have h2 : (⌊dt / fixedDt⌋ : ℚ) + 1 ≤ 1 := by
          have : (⌊dt / fixedDt⌋ : ℚ) ≤ 0 := by exact_mod_cast hf
          linarith
        linarith
      have hdt : dt < fixedDt := (div_lt_one hfd).mp hr
      unfold springStepDt
      rw [hn]
      push_cast
      rw [div_one]
      linarith
    · have h1le : 1 ≤ ⌊dt / fixedDt⌋ := hf
      have htn : 1 ≤ Int.toNat ⌊dt / fixedDt⌋ := by omega
      have hn : springSteps dt = Int.toNat ⌊dt / fixedDt⌋ := by
        unfold springSteps
        exact Nat.max_eq_left htn
      have hcast : ((Int.toNat ⌊dt / fixedDt⌋ : ℕ) : ℚ) = ((⌊dt / fixedDt⌋ : ℤ) : ℚ) := by
        exact_mod_cast Int.toNat_of_nonneg (le_of_lt hf)
      have hfl : (1:ℚ) ≤ ((⌊dt / fixedDt⌋ : ℤ) : ℚ) := by exact_mod_cast h1le
      have hup : dt / fixedDt < ((⌊dt / fixedDt⌋ : ℤ) : ℚ) + 1 :=
        Int.lt_floor_add_one (dt / fixedDt)
      have hdtlt : dt < fixedDt * (((⌊dt / fixedDt⌋ : ℤ) : ℚ) + 1) := by
        rw [div_lt_iff₀ hfd] at hup
        linarith [hup]
      unfold springStepDt
      rw [hn, hcast]
      rw [div_lt_iff₀ (by linarith : (0:ℚ) < ((⌊dt / fixedDt⌋ : ℤ) : ℚ))]
      nlinarith [hfl, hdtlt, hfd]

/-- Witness for claim C6: dt = 1/50 s splits into 2 substeps of 1/100 s
each, below the 1/60 s bound. -/
theorem spring_substep_count_and_bound_w :
    (0:ℚ) < 1/50 ∧
      (1 ≤ springSteps (1/50) ∧ 0 < springStepDt (1/50) ∧
        springStepDt (1/50) < 2 * fixedDt) :=
  ⟨by norm_num, spring_substep_count_and_bound (1/50) (by norm_num)⟩

theorem runUpd_cons_some {α : Type} (A : AnimatableOps α) (m : Motion α)
    (dt : ℚ) (rest : List ℚ) (o : UpdateOut α)
    (ho : Motion.update A m dt = Option.some o) :
    runUpd A m (dt :: rest) =
      (runUpd A o.state rest).map
        (fun r => (r.1, o.seqFired + r.2.1, o.cfgFired + r.2.2)) := by
  conv_lhs => rw [runUpd]
  rw [ho]

theorem runUpd_stopped {α : Type} (A : AnimatableOps α) (dts : List ℚ) :
    ∀ (m : Motion α), m.running = false → m.sequence = Option.none →
      runUpd A m dts = Option.some (m, 0, 0) := by
  induction dts with
  | nil => intro m _ _; rfl
  | cons dt rest ih =>
      intro m h1 h2
      rw [runUpd_cons_some A m dt rest _ (update_stopped A m dt h1 h2),
        ih m h1 h2]
      rfl

theorem tween_step {α : Type} (A : AnimatableOps α) (tw : Tween)
    (cfg : AnimationConfig) (tgt : α) (s dt : ℚ) (m : Motion α)
    (hmode : cfg.mode = AnimationMode.Tween tw)
    (hdelay : cfg.delay = 0) (hloop : cfg.loopMode = Option.none)
    (hD : 0 < tw.duration)
    (hmid : TweenMid cfg tgt s m) (hs : 0 ≤ s) (hdt : minDelta ≤ dt) :
    ∃ o, Motion.update A m dt = Option.some o ∧
      (if tw.duration ≤ s + dt then
        o.state.running = false ∧ o.state.sequence = Option.none ∧
          o.state.current = tgt
      else TweenMid cfg tgt (s + dt) o.state) := by
  obtain ⟨hrun, hseq, hel, hde, hcfg, htg⟩ := hmid
  have hdtpos : (0:ℚ) < dt := lt_of_lt_of_le (by norm_num [minDelta]) hdt
  have h1 := update_running_noseq A m dt hrun hseq
  have hd : ¬ m.delayElapsed < m.config.delay := by
    rw [hde, hcfg, hdelay]
    exact lt_irrefl 0
  have h2 := afterSeq_tween A m dt tw (not_lt.mpr hdt) hd (by rw [hcfg, hmode])
  by_cases hc : tw.duration ≤ s + dt
  · have h3 := tween_complete A m dt tw hD (by rw [hel]; exact hc)
    rw [h3, if_pos rfl] at h2
    have h4 := handle_no_loop A
      { m with elapsed := m.elapsed + dt, current := m.target }
      (by rw [hcfg]; exact hloop)
    rw [h4] at h2
    refine ⟨_, by rw [h1, h2], ?_⟩
    rw [if_pos hc]
    exact ⟨rfl, hseq, htg⟩
  · have hlt : s + dt < tw.duration := lt_of_not_le hc
    obtain ⟨c, h3⟩ := tween_mid A m dt tw hD
      (by rw [hel]; linarith) (by rw [hel]; exact hlt)
    rw [h3] at h2
    rw [if_neg (by simp)] at h2
    refine ⟨_, by rw [h1, h2], ?_⟩
    rw [if_neg hc]
    exact ⟨hrun, hseq, by rw [hel], hde, hcfg, htg⟩

theorem tween_run {α : Type} (A : AnimatableOps α) (tw : Tween)
    (cfg : AnimationConfig) (tgt : α)
    (hmode : cfg.mode = AnimationMode.Tween tw)
    (hdelay : cfg.delay = 0) (hloop : cfg.loopMode = Option.none)
    (hD : 0 < tw.duration) (dts : List ℚ) :
    ∀ (m : Motion α) (s : ℚ),
      (∀ d ∈ dts, minDelta ≤ d) → TweenMid cfg tgt s m → 0 ≤ s →
      s < tw.duration → tw.duration ≤ s + dts.sum →
      ∃ r, runUpd A m dts = Option.some r ∧
        r.1.current = tgt ∧ Motion.is_running r.1 = false := by
  induction dts with
  | nil =>
      intro m s _ _ _ hlt hsum
      simp only [List.sum_nil, add_zero] at hsum
      exact absurd hsum (not_le.mpr hlt)
  | cons dt rest ih =>
      intro m s hall hmid hs hlt hsum
      have hdt : minDelta ≤ dt := hall dt (by simp)
      have hdtpos : (0:ℚ) < dt := lt_of_lt_of_le (by norm_num [minDelta]) hdt
      obtain ⟨o, ho, hcase⟩ :=
        tween_step A tw cfg tgt s dt m hmode hdelay hloop hD hmid hs hdt
      rw [runUpd_cons_some A m dt rest o ho]
      by_cases hc : tw.duration ≤ s + dt
      · rw [if_pos hc] at hcase
        obtain ⟨hr, hsq, hcur⟩ := hcase
        rw [runUpd_stopped A rest o.state hr hsq]
        refine ⟨_, rfl, hcur, ?_⟩
        simp [Motion.is_running, hr, hsq]
      · rw [if_neg hc] at hcase
        have hrest : tw.duration ≤ (s + dt) + rest.sum := by
          have : (dt :: rest).sum = dt + rest.sum := by simp
          rw [this] at hsum
          linarith
        obtain ⟨r, hr, h1, h2⟩ := ih o.state (s + dt)
          (fun d hd => hall d (by simp [hd])) hcase (by linarith)
          (lt_of_not_le hc) hrest
        rw [hr]
        exact ⟨_, rfl, h1, h2⟩

/-- Claim C4 as amended: for any target and tween of duration D > 0 (no looping,
no delay), after a run of `update` calls in which every dt is at least the
1/240 minimum delta (smaller deltas are skipped entirely) and whose
cumulative dt reaches D, `value()` equals the target exactly and
`is_running()` is false afterward. -/
theorem tween_reaches_target_when_deltas_counted {α : Type}
    (A : AnimatableOps α) (v0 tgt : α) (D : ℚ) (e : ℚ → ℚ → ℚ → ℚ → ℚ)
    (dts : List ℚ) (hD : 0 < D) (hall : ∀ d ∈ dts, minDelta ≤ d)
    (hsum : D ≤ dts.sum) :
    ∃ r, runUpd A
        (Motion.animate_to A (Motion.new A v0) tgt
          { mode := AnimationMode.Tween { duration := D, easing := e }
            loopMode := Option.none
            delay := 0
            onComplete := false }) dts = Option.some r ∧
      Motion.value r.1 = tgt ∧ Motion.is_running r.1 = false := by
  obtain ⟨r, h1, h2, h3⟩ :=
    tween_run A { duration := D, easing := e }
      { mode := AnimationMode.Tween { duration := D, easing := e }
        loopMode := Option.none
        delay := 0
        onComplete := false } tgt rfl rfl rfl hD dts
      (Motion.animate_to A (Motion.new A v0) tgt
        { mode := AnimationMode.Tween { duration := D, easing := e }
          loopMode := Option.none
          delay := 0
          onComplete := false }) 0 hall
      ⟨rfl, rfl, rfl, rfl, rfl, rfl⟩ le_rfl hD (by simpa using hsum)
  exact ⟨r, h1, h2, h3⟩

/-- Witness for claim C4: duration 1/2 s, two counted updates of 1/4 s
each reach the target 1 exactly and stop the motion. -/
theorem tween_reaches_target_when_deltas_counted_w :
    ((0:ℚ) < 1/2) ∧ (∀ d ∈ [(1:ℚ)/4, 1/4], minDelta ≤ d) ∧
      ((1:ℚ)/2 ≤ [(1:ℚ)/4, 1/4].sum) ∧
      ∃ r, runUpd ratOps
          (Motion.animate_to ratOps (Motion.new ratOps 0) 1
            { mode := AnimationMode.Tween { duration := 1/2, easing := linearEase }
              loopMode := Option.none
              delay := 0
              onComplete := false }) [1/4, 1/4] = Option.some r ∧
        Motion.value r.1 = 1 ∧ Motion.is_running r.1 = false := by
  have hmem : ∀ d ∈ [(1:ℚ)/4, 1/4], minDelta ≤ d := by
    intro d hd
    simp only [List.mem_cons, List.not_mem_nil, or_false] at hd
    rcases hd with h | h <;> rw [h] <;> norm_num [minDelta]
  exact ⟨by norm_num, hmem, by norm_num,
    tween_reaches_target_when_deltas_counted ratOps 0 1 (1/2) linearEase
      [1/4, 1/4] (by norm_num) hmem (by norm_num)⟩

theorem delay_run {α : Type} (A : AnimatableOps α) (cfg : AnimationConfig)
    (v0 : α) (dts : List ℚ) :
    ∀ (m : Motion α),
      (∀ d ∈ dts, 0 ≤ d) → m.running = true → m.sequence = Option.none →
      m.current = v0 → m.elapsed = 0 → m.config = cfg →
      m.delayElapsed + dts.sum < cfg.delay →
      ∃ r, runUpd A m dts = Option.some r ∧ r.1.current = v0 ∧
        r.1.elapsed = 0 ∧ r.1.running = true := by
  induction dts with
  | nil =>
      intro m _ _ _ hcur hel hrun2
      exact fun _ => ⟨(m, 0, 0), rfl, hcur, hel, ‹m.running = true›⟩
  | cons dt rest ih =>
      intro m hall hrun hseq hcur hel hcfg hlt
      have hd0 : (0:ℚ) ≤ dt := hall dt (by simp)
      have hrest0 : (0:ℚ) ≤ rest.sum :=
        List.sum_nonneg (fun d hd => hall d (by simp [hd]))
      have hsum : (dt :: rest).sum = dt + rest.sum := by simp
      rw [hsum] at hlt
      have h1 := update_running_noseq A m dt hrun hseq
      by_cases hsk : dt < minDelta
      · rw [afterSeq_skip A m dt hsk] at h1
        rw [runUpd_cons_some A m dt rest _ h1]
        obtain ⟨r, hr, hc1, hc2, hc3⟩ := ih m
          (fun d hd => hall d (by simp [hd])) hrun hseq hcur hel hcfg
          (by linarith)
        rw [hr]
        exact ⟨_, rfl, hc1, hc2, hc3⟩
      · have hde : m.delayElapsed < m.config.delay := by
          rw [hcfg]
          linarith
        rw [afterSeq_delay A m dt hsk hde] at h1
        rw [runUpd_cons_some A m dt rest _ h1]
        obtain ⟨r, hr, hc1, hc2, hc3⟩ := ih
          { m with delayElapsed := m.delayElapsed + dt }
          (fun d hd => hall d (by simp [hd])) hrun hseq hcur hel hcfg
          (by simpa using by linarith)
        rw [hr]
        exact ⟨_, rfl, hc1, hc2, hc3⟩

/-- Claim C7: with a configured start delay, for every run of `update` calls
with nonnegative dt whose cumulative dt stays below the delay, `value()`
remains exactly the initial value, no animation time accrues
(elapsed = 0) and the motion is still in its pre-animation running state;
hence the animation can begin advancing only once cumulative dt reaches
the delay. -/
theorem delay_gates_value {α : Type} (A : AnimatableOps α) (v0 tgt : α)
    (cfg : AnimationConfig) (dts : List ℚ) (hall : ∀ d ∈ dts, 0 ≤ d)
    (hsum : dts.sum < cfg.delay) :
    ∃ r, runUpd A (Motion.animate_to A (Motion.new A v0) tgt cfg) dts =
        Option.some r ∧ Motion.value r.1 = v0 ∧ r.1.elapsed = 0 ∧
      r.1.running = true := by
  obtain ⟨r, h1, h2, h3, h4⟩ := delay_run A cfg v0 dts
    (Motion.animate_to A (Motion.new A v0) tgt cfg) hall rfl rfl rfl rfl rfl
    (by
      have h0 : (Motion.animate_to A (Motion.new A v0) tgt cfg).delayElapsed = 0 := rfl
      rw [h0, zero_add]
      exact hsum)
  exact ⟨r, h1, h2, h3, h4⟩

/-- Witness for claim C7: delay 1 s, two updates of 1/4 s each (cumulative 1/2 s):
the value is still the initial 0 and no animation time has accrued. -/
theorem delay_gates_value_w :
    (∀ d ∈ [(1:ℚ)/4, 1/4], 0 ≤ d) ∧
      ([(1:ℚ)/4, 1/4].sum <
        (AnimationConfig.mk (AnimationMode.Tween { duration := 1, easing := linearEase })
          Option.none 1 false).delay) ∧
      ∃ r, runUpd ratOps
          (Motion.animate_to ratOps (Motion.new ratOps 0) 1
            (AnimationConfig.mk
              (AnimationMode.Tween { duration := 1, easing := linearEase })
              Option.none 1 false)) [1/4, 1/4] = Option.some r ∧
        Motion.value r.1 = 0 ∧ r.1.elapsed = 0 ∧ r.1.running = true := by
  have hmem : ∀ d ∈ [(1:ℚ)/4, 1/4], 0 ≤ d := by
    intro d hd
    simp only [List.mem_cons, List.not_mem_nil, or_false] at hd
    rcases hd with h | h <;> rw [h] <;> norm_num
  exact ⟨hmem, by norm_num,
    delay_gates_value ratOps 0 1
      (AnimationConfig.mk (AnimationMode.Tween { duration := 1, easing := linearEase })
        Option.none 1 false) [1/4, 1/4] hmem (by norm_num)⟩

/-- Counterexample for claim C8: a color whose public red field was set to 2
(outside [0,1]) is not reproduced by interpolating at t = 0: `Color::new`
clamps the red component back to 1. -/
theorem color_interpolate_zero_clamps_out_of_range :
    Color.interpolate ⟨2, 0, 0, 0⟩ ⟨0, 0, 0, 0⟩ 0 ≠ ⟨2, 0, 0, 0⟩ := by
  norm_num [Color.interpolate, Color.new, clampQ, Color.mk.injEq]

/-- Claim C8 as amended: for colors whose components all lie in the clamped range
[0,1], interpolation is exact at both endpoints: `v.interpolate(t, 0) = v`
and `v.interpolate(t, 1) = t`. -/
theorem color_interpolate_endpoints (v t : Color)
    (hv : 0 ≤ v.r ∧ v.r ≤ 1 ∧ 0 ≤ v.g ∧ v.g ≤ 1 ∧ 0 ≤ v.b ∧ v.b ≤ 1 ∧
      0 ≤ v.a ∧ v.a ≤ 1)
    (ht : 0 ≤ t.r ∧ t.r ≤ 1 ∧ 0 ≤ t.g ∧ t.g ≤ 1 ∧ 0 ≤ t.b ∧ t.b ≤ 1 ∧
      0 ≤ t.a ∧ t.a ≤ 1) :
    Color.interpolate v t 0 = v ∧ Color.interpolate v t 1 = t := by
  obtain ⟨h1, h2, h3, h4, h5, h6, h7, h8⟩ := hv
  obtain ⟨g1, g2, g3, g4, g5, g6, g7, g8⟩ := ht
  constructor
  · norm_num [Color.interpolate, Color.new, clampQ, not_lt.mpr h1,
      not_lt.mpr h2, not_lt.mpr h3, not_lt.mpr h4, not_lt.mpr h5,
      not_lt.mpr h6, not_lt.mpr h7, not_lt.mpr h8]
  · norm_num [Color.interpolate, Color.new, clampQ, not_lt.mpr g1,
      not_lt.mpr g2, not_lt.mpr g3, not_lt.mpr g4, not_lt.mpr g5,
      not_lt.mpr g6, not_lt.mpr g7, not_lt.mpr g8]

/-- Witness for claim C8: in-range colors hit both endpoints exactly. -/
theorem color_interpolate_endpoints_w :
    Color.interpolate ⟨1/2, 0, 1, 1⟩ ⟨0, 1, 0, 1/2⟩ 0 = ⟨1/2, 0, 1, 1⟩ ∧
      Color.interpolate ⟨1/2, 0, 1, 1⟩ ⟨0, 1, 0, 1/2⟩ 1 = ⟨0, 1, 0, 1/2⟩ :=
  color_interpolate_endpoints ⟨1/2, 0, 1, 1⟩ ⟨0, 1, 0, 1/2⟩
    (by norm_num) (by norm_num)

theorem update_tween_seq {α : Type} (A : AnimatableOps α) (tw : Tween)
    (m : Motion α) (dt : ℚ) :
    (Motion.update_tween A tw m dt).1.sequence = m.sequence := by
  simp only [Motion.update_tween]
  split_ifs <;> rfl

theorem springLoop_seq {α : Type} (A : AnimatableOps α) (sp : Spring)
    (stepDt : ℚ) (n : ℕ) :
    ∀ (m : Motion α),
      (Motion.springLoop A sp stepDt n m).1.sequence = m.sequence := by
  induction n with
  | zero =>
      intro m
      simp only [Motion.springLoop, Motion.check_spring_completion]
      split_ifs <;> rfl
  | succ k ih =>
      intro m
      simp only [Motion.springLoop]
      split_ifs with h
      · rfl
      · rw [ih]

theorem update_spring_seq {α : Type} (A : AnimatableOps α) (sp : Spring)
    (m : Motion α) (dt : ℚ) :
    (Motion.update_spring A sp m dt).1.sequence = m.sequence :=
  springLoop_seq A sp (springStepDt dt) (springSteps dt) m

theorem handle_completion_seq {α : Type} (A : AnimatableOps α) (m : Motion α) :
    (Motion.handle_completion A m).state.sequence = m.sequence ∨
      (Motion.handle_completion A m).state.sequence = Option.none := by
  cases hlm : m.config.loopMode.getD LoopMode.None with
  | None => left; simp [Motion.handle_completion, hlm]
  | Infinite => left; simp [Motion.handle_completion, hlm]
  | Times count =>
      simp only [Motion.handle_completion, hlm]
      split_ifs <;> first | (right; rfl) | (left; rfl)

theorem updateAfterSeq_seq {α : Type} (A : AnimatableOps α) (m : Motion α)
    (dt : ℚ) :
    (Motion.updateAfterSeq A m dt).state.sequence = m.sequence ∨
      (Motion.updateAfterSeq A m dt).state.sequence = Option.none := by
  unfold Motion.updateAfterSeq
  split_ifs with h1 h2
  · left; rfl
  · left; rfl
  · simp only []
    split
    · split
      · rcases handle_completion_seq A
            (Motion.update_spring A _ m dt).1 with h | h
        · left
          rw [h, update_spring_seq]
        · right
          exact h
      · left
        exact update_spring_seq A _ m dt
    · split
      · rcases handle_completion_seq A
            (Motion.update_tween A _ m dt).1 with h | h
        · left
          rw [h, update_tween_seq]
        · right
          exact h
      · left
        exact update_tween_seq A _ m dt

theorem SeqOK_of_none {α : Type} (m : Motion α)
    (h : m.sequence = Option.none) : SeqOK m := by
  intro s hs
  rw [h] at hs
  cases hs

theorem updateAfterSeq_SeqOK {α : Type} (A : AnimatableOps α) (m : Motion α)
    (dt : ℚ) (hm : SeqOK m) : SeqOK (Motion.updateAfterSeq A m dt).state := by
  intro s hs
  rcases updateAfterSeq_seq A m dt with h | h
  · exact hm s (by rw [← h]; exact hs)
  · rw [h] at hs
    cases hs

theorem update_SeqOK {α : Type} (A : AnimatableOps α) (m : Motion α) (dt : ℚ)
    (o : UpdateOut α) (ho : Motion.update A m dt = Option.some o)
    (hm : SeqOK m) : SeqOK o.state := by
  unfold Motion.update at ho
  split at ho
  · obtain rfl := Option.some.inj ho
    exact hm
  · split at ho
    · split at ho
      · obtain rfl := Option.some.inj ho
        exact updateAfterSeq_SeqOK A m dt hm
      · simp only [] at ho
        split at ho
        · split at ho
          · obtain rfl := Option.some.inj ho
            exact updateAfterSeq_SeqOK A _ dt (SeqOK_of_none _ rfl)
          · cases ho
        · split at ho
          · obtain rfl := Option.some.inj ho
            exact SeqOK_of_none _ rfl
          · obtain rfl := Option.some.inj ho
            exact updateAfterSeq_SeqOK A m dt hm
    · obtain rfl := Option.some.inj ho
      exact updateAfterSeq_SeqOK A m dt hm

theorem reachable_SeqOK {α : Type} (A : AnimatableOps α) (m : Motion α)
    (hm : Reachable A m) : SeqOK m := by
  induction hm with
  | new v => exact SeqOK_of_none _ rfl
  | animTo tgt cfg _ _ => exact SeqOK_of_none _ rfl
  | animSeq s _ ih =>
      rename_i m0 _
      intro s1 hs1
      unfold Motion.animate_sequence at hs1
      cases hh : s.steps.head? with
      | none =>
          rw [hh] at hs1
          exact ih s1 hs1
      | some firstStep =>
          rw [hh] at hs1
          simp only [Option.some.injEq] at hs1
          subst hs1
          intro hnil
          rw [hnil] at hh
          cases hh
  | upd dt o _ ho ih => exact update_SeqOK A _ dt o ho ih
  | stopOp _ _ => exact SeqOK_of_none _ rfl
  | resetOp _ _ => exact SeqOK_of_none _ rfl
  | delayCfg d _ ih =>
      intro s1 hs1
      exact ih s1 hs1

/-- Claim C10: in every Motion state reachable through the public operations,
a stored sequence always has a non-empty steps list (so the
`steps.len() - 1` computation in `update`'s sequence branch never
underflows). -/
theorem reachable_sequence_steps_nonempty {α : Type} (A : AnimatableOps α)
    (m : Motion α) (hm : Reachable A m) (s : AnimationSequence α)
    (hs : m.sequence = Option.some s) : s.steps ≠ [] :=
  reachable_SeqOK A m hm s hs

/-- Witness for claim C10: the reachable state holding the one-step sequence
`seqA1` stores a non-empty steps list. -/
theorem reachable_sequence_steps_nonempty_w :
    (Motion.animate_sequence ratOps (Motion.new ratOps 0) seqA1).sequence =
        Option.some seqA1 ∧ seqA1.steps ≠ [] :=
  ⟨rfl, reachable_sequence_steps_nonempty ratOps _
    (Reachable.animSeq seqA1 (Reachable.new 0)) seqA1 rfl⟩
